import Mathlib

/-!
Verification of the commit-coach diff semantic analyzer and insight rule
engine, shallowly embedded from the TypeScript source
(`src/analyzers/semantic.ts`, `src/insights/generator.ts`,
`src/types/index.ts`).  Strings are modelled as Lean `String`s (lists of
characters); JavaScript regular-expression matching is embedded as explicit
leftmost search functions; JavaScript numbers carrying confidences and
priorities are modelled as rationals.  `Insight.metadata` (an opaque payload
for downstream formatters, never read by the core) is not modelled.
-/

set_option maxRecDepth 20000

namespace CommitCoach

/-! ## Character classes and low-level string operations -/

/-- The JS `\w` character class (ASCII word characters). -/
def isWordChar (c : Char) : Bool :=
  (('a' ≤ c && c ≤ 'z') || ('A' ≤ c && c ≤ 'Z') || ('0' ≤ c && c ≤ '9') || c = '_')

/-- The JS `\s` character class, restricted to the ASCII whitespace used here. -/
def isSpaceChar (c : Char) : Bool :=
  (c = ' ' || c = '\t' || c = '\n' || c = '\r' || c = '\x0b' || c = '\x0c')

/-- Does `pre` occur at the start of `l`? -/
def hasPrefixL : List Char → List Char → Bool
  | [], _ => true
  | _ :: _, [] => false
  | a :: pre, b :: l => a = b && hasPrefixL pre l

/-- JS `String.prototype.includes`: does `nd` occur contiguously in `l`? -/
def containsL (nd : List Char) : List Char → Bool
  | [] => hasPrefixL nd []
  | c :: rest => hasPrefixL nd (c :: rest) || containsL nd rest

/-- JS `hay.includes(needle)`. -/
def containsStr (hay needle : String) : Bool :=
  containsL needle.data hay.data

/-- JS `s.startsWith(c)` for a single-character prefix. -/
def startsWithChar (c : Char) (s : String) : Bool :=
  match s.data with
  | [] => false
  | a :: _ => a = c

/-- JS `s.substring(1)`. -/
def strTail (s : String) : String := ⟨s.data.drop 1⟩

/-- JS `s.length` (inputs are ASCII, so UTF-16 length = character count). -/
def strLen (s : String) : Nat := s.data.length

/-- JS `s.trim()` restricted to ASCII whitespace. -/
def trimStr (s : String) : String :=
  ⟨((s.data.dropWhile isSpaceChar).reverse.dropWhile isSpaceChar).reverse⟩

/-- JS `s.toLowerCase()`. -/
def lowerStr (s : String) : String := ⟨s.data.map Char.toLower⟩

/-- JS `s.endsWith(suf)`. -/
def endsWithStr (suf s : String) : Bool :=
  hasPrefixL suf.data.reverse s.data.reverse

/-- Split on the newline character; JS `s.split('\n')` (so `""` gives `[""]`). -/
def splitNl : List Char → List (List Char)
  | [] => [[]]
  | c :: rest =>
    let r := splitNl rest
    if c = '\n' then [] :: r
    else
      match r with
      | [] => [[c]]
      | h :: t => (c :: h) :: t

/-- JS `s.split('\n')` on strings. -/
def splitLines (s : String) : List String := (splitNl s.data).map fun l => ⟨l⟩

/-- JS `parts.join(sep)`. -/
def joinSep (sep : String) : List String → String
  | [] => ""
  | [a] => a
  | a :: rest => a ++ sep ++ joinSep sep rest

/-- JS `slice(0, e)`: a negative end index counts back from the end. -/
def jsSlice0 (e : Int) (l : List α) : List α :=
  l.take (if e < 0 then ((l.length : Int) + e).toNat else e.toNat)

/-! ## Embedded regular-expression search

Each JS regex used by the source is embedded as a matcher that tries to match
at the head of a character list, together with the generic leftmost search
`searchAt` that tries every start position (the semantics of `String.match`
for these backtracking-free patterns). -/

/-- Leftmost search: first position (from the left) where `m` matches. -/
def searchAt (m : List Char → Option α) : List Char → Option α
  | [] => m []
  | c :: rest =>
    match m (c :: rest) with
    | some r => some r
    | none => searchAt m rest

/-- Strip the literal `pre` from the head of `l`. -/
def stripLit : List Char → List Char → Option (List Char)
  | [], l => some l
  | _ :: _, [] => none
  | a :: pre, b :: l => if a = b then stripLit pre l else none

/-- Match `\s+` at the head (at least one whitespace char, greedily). -/
def stripSpaces1 (l : List Char) : Option (List Char) :=
  match l with
  | [] => none
  | c :: rest => if isSpaceChar c then some (rest.dropWhile isSpaceChar) else none

/-- Match the capture group `(\w+)` at the head (greedy, at least one char). -/
def captureWord (l : List Char) : Option String :=
  let w := l.takeWhile isWordChar
  if w.isEmpty then none else some ⟨w⟩

/-- Match `export\s+(?:async\s+)?function\s+(\w+)` at the head. -/
def matchFuncAt (l : List Char) : Option String := do
  let l1 ← stripLit "export".data l
  let l2 ← stripSpaces1 l1
  -- the optional `async\s+` group: if `async` is not followed by whitespace
  -- the regex backtracks to the empty alternative
  let l3 :=
    match stripLit "async".data l2 with
    | some t =>
      match stripSpaces1 t with
      | some u => u
      | none => l2
    | none => l2
  let l4 ← stripLit "function".data l3
  let l5 ← stripSpaces1 l4
  captureWord l5

/-- Match `export\s+class\s+(\w+)` at the head. -/
def matchClassAt (l : List Char) : Option String := do
  let l1 ← stripLit "export".data l
  let l2 ← stripSpaces1 l1
  let l3 ← stripLit "class".data l2
  let l4 ← stripSpaces1 l3
  captureWord l4

/-- Match `export\s+interface\s+(\w+)` at the head. -/
def matchInterfaceAt (l : List Char) : Option String := do
  let l1 ← stripLit "export".data l
  let l2 ← stripSpaces1 l1
  let l3 ← stripLit "interface".data l2
  let l4 ← stripSpaces1 l3
  captureWord l4

/-- Match a literal followed by the capture `(\w+)`, e.g. `FEATURE_(\w+)`. -/
def matchLitWordAt (lit : String) (l : List Char) : Option String := do
  let l1 ← stripLit lit.data l
  captureWord l1

/-- `content.match(re)` capture for one of the embedded patterns. -/
def jsSearch (m : List Char → Option String) (s : String) : Option String :=
  searchAt m s.data

/-! ## Data model (`src/types/index.ts`, `src/analyzers/semantic.ts`) -/

/-- `ChangedFile.status`. -/
inductive FileStatus
  | added | modified | deleted | renamed
deriving DecidableEq, Repr

/-- One file touched by the commit (`ChangedFile`). -/
structure ChangedFile where
  path : String
  status : FileStatus
  additions : Nat
  deletions : Nat
  diff : String
deriving DecidableEq, Repr

/-- One commit (`CommitInfo`); the `date` field is an opaque timestamp. -/
structure CommitInfo where
  hash : String
  message : String
  author : String
  date : Int
  diff : String
  files : List ChangedFile
deriving DecidableEq, Repr

/-- `Insight.type`. -/
inductive InsightType
  | warning | suggestion | info | error
deriving DecidableEq, Repr

/-- One reportable finding (`Insight`); the opaque `metadata` payload is not
modelled. -/
structure Insight where
  id : String
  type : InsightType
  title : String
  message : String
  confidence : ℚ
deriving DecidableEq, Repr

/-- `summary` component of an `AnalysisResult`. -/
structure Summary where
  totalLines : Nat
  filesChanged : Nat
  testFilesChanged : Nat
  documentationFilesChanged : Nat
deriving DecidableEq, Repr

/-- `AnalysisResult`. -/
structure AnalysisResult where
  commit : CommitInfo
  insights : List Insight
  summary : Summary
deriving DecidableEq, Repr

/-- `RuleConfig` (severity reuses the insight type vocabulary). -/
structure RuleConfig where
  id : String
  enabled : Bool
  severity : InsightType
  conditions : List String
  message : String
deriving DecidableEq, Repr

/-- `OutputConfig.format`. -/
inductive OutputFormat
  | comment | statusCheck | report | console
deriving DecidableEq, Repr

/-- `OutputConfig`; `maxInsights` is a JS number, so an arbitrary integer. -/
structure OutputConfig where
  format : OutputFormat
  includeSummary : Bool
  maxInsights : Int
deriving DecidableEq, Repr

/-- `ThresholdConfig`. -/
structure ThresholdConfig where
  minConfidence : ℚ
  maxInsightsPerType : List (String × Int)
  skipOnSmallChanges : Bool
  smallChangeThreshold : Nat
deriving DecidableEq, Repr

/-- `IntegrationConfig`: connection settings for external services, never read
by the analysis core. -/
structure IntegrationConfig where
deriving DecidableEq, Repr

/-- `CoachConfig`. -/
structure CoachConfig where
  rules : List RuleConfig
  output : OutputConfig
  integrations : IntegrationConfig
  thresholds : ThresholdConfig
deriving DecidableEq, Repr

/-- `PublicApiChange.type`. -/
inductive ApiChangeType
  | function | class' | interface | type' | constant
deriving DecidableEq, Repr

/-- `PublicApiChange.action` / `FeatureFlag.action`. -/
inductive ChangeAction
  | added | modified | removed
deriving DecidableEq, Repr

/-- `PublicApiChange`; the optional `signature` field is never set by the
source, so it is not modelled. -/
structure PublicApiChange where
  type : ApiChangeType
  name : String
  file : String
  action : ChangeAction
  isExported : Bool
deriving DecidableEq, Repr

/-- `TestCoverageInfo`. -/
structure TestCoverageInfo where
  testFilesAdded : List String
  testFilesModified : List String
  sourceFilesWithoutTests : List String
  testCoverageRatio : ℚ
deriving DecidableEq, Repr

/-- `DocumentationChange.type`. -/
inductive DocType
  | readme | apiDocs | comments | changelog
deriving DecidableEq, Repr

/-- `DocumentationChange`. -/
structure DocumentationChange where
  type : DocType
  file : String
  action : FileStatus
  hasNewFeatures : Bool
deriving DecidableEq, Repr

/-- `FeatureFlag.type`. -/
inductive FlagType
  | boolean | string' | number | object
deriving DecidableEq, Repr

/-- `FeatureFlag`. -/
structure FeatureFlag where
  name : String
  file : String
  action : ChangeAction
  type : FlagType
deriving DecidableEq, Repr

/-- `BreakingChange.type`. -/
inductive BreakType
  | signature | removal | behavior
deriving DecidableEq, Repr

/-- `BreakingChange.severity`. -/
inductive Severity
  | major | minor | patch
deriving DecidableEq, Repr

/-- `BreakingChange`. -/
structure BreakingChange where
  type : BreakType
  description : String
  file : String
  severity : Severity
deriving DecidableEq, Repr

/-- `SemanticAnalysis`. -/
structure SemanticAnalysis where
  publicApiChanges : List PublicApiChange
  testCoverage : TestCoverageInfo
  documentationChanges : List DocumentationChange
  featureFlags : List FeatureFlag
  breakingChanges : List BreakingChange
deriving DecidableEq, Repr

/-! ## `SemanticAnalyzer` (`src/analyzers/semantic.ts`) -/

/-- `isSourceFile`: the path ends in a recognized language extension
(regex `\.(js|ts|jsx|tsx|py|java|cpp|c|go|rs|php|rb)$`). -/
def isSourceFile (path : String) : Bool :=
  ([".js", ".ts", ".jsx", ".tsx", ".py", ".java", ".cpp", ".c", ".go", ".rs",
    ".php", ".rb"]).any fun ext => endsWithStr ext path

/-- `SemanticAnalyzer.isTestFile`: any of `testFilePatterns` matches
(`\.test\.(js|ts|jsx|tsx)$`, `\.spec\.(js|ts|jsx|tsx)$`, `__tests__/`,
`test/`, `tests/`). -/
def isTestFile (path : String) : Bool :=
  ([".test.js", ".test.ts", ".test.jsx", ".test.tsx",
    ".spec.js", ".spec.ts", ".spec.jsx", ".spec.tsx"]).any
      (fun suf => endsWithStr suf path)
  || containsStr path "__tests__/"
  || containsStr path "test/"
  || containsStr path "tests/"

/-- `SemanticAnalyzer.isDocumentationFile`: any of `docFilePatterns` matches
(`README`, `CHANGELOG`, `CONTRIBUTING` case-insensitively; `docs?/`;
`documentation/`). -/
def isDocumentationFile (path : String) : Bool :=
  containsStr (lowerStr path) "readme"
  || containsStr (lowerStr path) "changelog"
  || containsStr (lowerStr path) "contributing"
  || containsStr path "doc/"
  || containsStr path "docs/"
  || containsStr path "documentation/"

/-- `sourcePath.replace(/\.(js|ts|jsx|tsx)$/, '')`: drop a trailing JS/TS
extension when present (the four alternatives are mutually exclusive). -/
def stripJsTsExt (path : String) : String :=
  if endsWithStr ".jsx" path then ⟨path.data.dropLast.dropLast.dropLast.dropLast⟩
  else if endsWithStr ".tsx" path then ⟨path.data.dropLast.dropLast.dropLast.dropLast⟩
  else if endsWithStr ".js" path then ⟨path.data.dropLast.dropLast.dropLast⟩
  else if endsWithStr ".ts" path then ⟨path.data.dropLast.dropLast.dropLast⟩
  else path

/-- `hasCorrespondingTestFile`. -/
def hasCorrespondingTestFile (sourcePath : String) (allFiles : List ChangedFile) : Bool :=
  let baseName := stripJsTsExt sourcePath
  allFiles.any fun file => isTestFile file.path && containsStr file.path baseName

/-- `getDocumentationType`. -/
def getDocumentationType (path : String) : DocType :=
  if containsStr (lowerStr path) "readme" then .readme
  else if containsStr (lowerStr path) "changelog" then .changelog
  else if containsStr path "doc/" || containsStr path "docs/" then .apiDocs
  else .comments

/-- `hasNewFeaturesInFile`: the diff, lower-cased, contains one of the
feature keywords. -/
def hasNewFeaturesInFile (file : ChangedFile) : Bool :=
  (["feature", "new", "add", "implement", "support"]).any fun kw =>
    containsStr (lowerStr file.diff) kw

/-- Loop body of `extractPublicApiChanges`: the records one diff line
contributes (function, class, interface patterns tried independently). -/
def extractApiLine (path line : String) : List PublicApiChange :=
  if startsWithChar '+' line || startsWithChar '-' line then
    let content := strTail line
    let action : ChangeAction := if startsWithChar '+' line then .added else .removed
    (match jsSearch matchFuncAt content with
     | some nm => [⟨.function, nm, path, action, true⟩]
     | none => [])
    ++ (match jsSearch matchClassAt content with
        | some nm => [⟨.class', nm, path, action, true⟩]
        | none => [])
    ++ (match jsSearch matchInterfaceAt content with
        | some nm => [⟨.interface, nm, path, action, true⟩]
        | none => [])
  else []

/-- The line loop of `extractPublicApiChanges`. -/
def extractApiLines (path : String) : List String → List PublicApiChange
  | [] => []
  | line :: rest => extractApiLine path line ++ extractApiLines path rest

/-- `extractPublicApiChanges`. -/
def extractPublicApiChanges (file : ChangedFile) : List PublicApiChange :=
  extractApiLines file.path (splitLines file.diff)

/-- The five `flagPatterns` of `extractFeatureFlags`, in source order. -/
def flagMatchers : List (List Char → Option String) :=
  [matchLitWordAt "FEATURE_", matchLitWordAt "ENABLE_", matchLitWordAt "USE_",
   matchLitWordAt "featureFlags.", matchLitWordAt "flags."]

/-- Loop body of `extractFeatureFlags`: each matching pattern on a `+`/`-`
line yields one flag record. -/
def extractFlagLine (path line : String) : List FeatureFlag :=
  if startsWithChar '+' line || startsWithChar '-' line then
    let content := strTail line
    let action : ChangeAction := if startsWithChar '+' line then .added else .removed
    flagMatchers.foldr
      (fun m acc =>
        (match jsSearch m content with
         | some nm => [⟨nm, path, action, .boolean⟩]
         | none => []) ++ acc) []
  else []

/-- The line loop of `extractFeatureFlags`. -/
def extractFlagLines (path : String) : List String → List FeatureFlag
  | [] => []
  | line :: rest => extractFlagLine path line ++ extractFlagLines path rest

/-- `extractFeatureFlags`. -/
def extractFeatureFlags (file : ChangedFile) : List FeatureFlag :=
  extractFlagLines file.path (splitLines file.diff)

/-- Loop body of `extractBreakingChanges`: a removed line containing both
`export` and `function` yields one major removal record. -/
def extractBreakLine (path line : String) : List BreakingChange :=
  if startsWithChar '-' line then
    let content := strTail line
    if containsStr content "export" && containsStr content "function" then
      [⟨.removal, "Removed exported function: " ++ trimStr content, path, .major⟩]
    else []
  else []

/-- The line loop of `extractBreakingChanges`. -/
def extractBreakLines (path : String) : List String → List BreakingChange
  | [] => []
  | line :: rest => extractBreakLine path line ++ extractBreakLines path rest

/-- `extractBreakingChanges`. -/
def extractBreakingChanges (file : ChangedFile) : List BreakingChange :=
  extractBreakLines file.path (splitLines file.diff)

/-- File loop of `analyzePublicApiChanges`. -/
def apiChangesOf : List ChangedFile → List PublicApiChange
  | [] => []
  | f :: rest =>
    (if isSourceFile f.path then extractPublicApiChanges f else []) ++ apiChangesOf rest

/-- `analyzePublicApiChanges`. -/
def analyzePublicApiChanges (commit : CommitInfo) : List PublicApiChange :=
  apiChangesOf commit.files

/-- File loop of `analyzeFeatureFlags`. -/
def featureFlagsOf : List ChangedFile → List FeatureFlag
  | [] => []
  | f :: rest =>
    (if isSourceFile f.path then extractFeatureFlags f else []) ++ featureFlagsOf rest

/-- `analyzeFeatureFlags`. -/
def analyzeFeatureFlags (commit : CommitInfo) : List FeatureFlag :=
  featureFlagsOf commit.files

/-- File loop of `analyzeBreakingChanges`. -/
def breakingChangesOf : List ChangedFile → List BreakingChange
  | [] => []
  | f :: rest =>
    (if isSourceFile f.path then extractBreakingChanges f else []) ++ breakingChangesOf rest

/-- `analyzeBreakingChanges`. -/
def analyzeBreakingChanges (commit : CommitInfo) : List BreakingChange :=
  breakingChangesOf commit.files

/-- The `sourceFilesWithoutTests` branch condition of the `analyzeTestCoverage`
loop: not a test file, a non-deleted source file, and no corresponding test
file in the commit. -/
def withoutTestsPred (allFiles : List ChangedFile) (f : ChangedFile) : Bool :=
  !isTestFile f.path && isSourceFile f.path && f.status ≠ FileStatus.deleted
    && !hasCorrespondingTestFile f.path allFiles

/-- `totalSourceFiles` inside `analyzeTestCoverage`: non-deleted source
files. -/
def totalSourceFiles (commit : CommitInfo) : Nat :=
  (commit.files.filter fun f =>
    isSourceFile f.path && f.status ≠ FileStatus.deleted).length

/-- `analyzeTestCoverage`: the single pass over `commit.files` appends to the
three lists in file order, which equals these filters. -/
def analyzeTestCoverage (commit : CommitInfo) : TestCoverageInfo :=
  let testFilesAdded :=
    (commit.files.filter fun f =>
      isTestFile f.path && f.status = FileStatus.added).map (·.path)
  let testFilesModified :=
    (commit.files.filter fun f =>
      isTestFile f.path && f.status = FileStatus.modified).map (·.path)
  let sourceFilesWithoutTests :=
    (commit.files.filter (withoutTestsPred commit.files)).map (·.path)
  let total := totalSourceFiles commit
  { testFilesAdded := testFilesAdded
    testFilesModified := testFilesModified
    sourceFilesWithoutTests := sourceFilesWithoutTests
    testCoverageRatio :=
      if 0 < total then
        ((total : ℚ) - sourceFilesWithoutTests.length) / total
      else 1 }

/-- File loop of `analyzeDocumentationChanges`. -/
def docChangesOf : List ChangedFile → List DocumentationChange
  | [] => []
  | f :: rest =>
    (if isDocumentationFile f.path then
      [{ type := getDocumentationType f.path
         file := f.path
         action :=
           match f.status with
           | .deleted => .deleted
           | .renamed => .renamed
           | s => s
         hasNewFeatures := hasNewFeaturesInFile f }]
     else []) ++ docChangesOf rest

/-- `analyzeDocumentationChanges`. -/
def analyzeDocumentationChanges (commit : CommitInfo) : List DocumentationChange :=
  docChangesOf commit.files

/-- `SemanticAnalyzer.analyze`. -/
def semanticAnalyze (commit : CommitInfo) : SemanticAnalysis :=
  { publicApiChanges := analyzePublicApiChanges commit
    testCoverage := analyzeTestCoverage commit
    documentationChanges := analyzeDocumentationChanges commit
    featureFlags := analyzeFeatureFlags commit
    breakingChanges := analyzeBreakingChanges commit }

/-! ## `InsightGenerator` (`src/insights/generator.ts`) -/

/-- `commit.files.reduce((sum, f) => sum + f.additions, 0)`. -/
def sumAdditions (files : List ChangedFile) : Nat :=
  files.foldl (fun sum f => sum + f.additions) 0

/-- `commit.files.reduce((sum, file) => sum + file.additions + file.deletions, 0)`. -/
def sumTotalLines (files : List ChangedFile) : Nat :=
  files.foldl (fun sum f => sum + f.additions + f.deletions) 0

/-- `generateTestCoverageInsights`. -/
def generateTestCoverageInsights (tc : TestCoverageInfo) : List Insight :=
  (if 0 < tc.sourceFilesWithoutTests.length then
    let files := tc.sourceFilesWithoutTests.take 3
    let moreFiles : Int := (tc.sourceFilesWithoutTests.length : Int) - 3
    [{ id := "missing-tests"
       type := .warning
       title := "Missing Test Coverage"
       message := "You added/modified " ++ joinSep ", " files
         ++ (if 0 < moreFiles then " and " ++ toString moreFiles ++ " more files" else "")
         ++ " but didn\x27t add corresponding tests. Consider adding tests to maintain code quality."
       confidence := mkRat 8 10 }]
   else [])
  ++ (if 0 < tc.testFilesAdded.length then
      [{ id := "tests-added"
         type := .info
         title := "Tests Added"
         message := "Great! You added tests for " ++ toString tc.testFilesAdded.length
           ++ " file(s). This helps maintain code quality."
         confidence := 1 }]
     else [])

/-- `generatePublicApiInsights`. -/
def generatePublicApiInsights (apiChanges : List PublicApiChange) : List Insight :=
  let removedApis := apiChanges.filter fun c => c.action = ChangeAction.removed && c.isExported
  let addedApis := apiChanges.filter fun c => c.action = ChangeAction.added && c.isExported
  (if 0 < removedApis.length then
    [{ id := "public-api-removed"
       type := .warning
       title := "Public API Removed"
       message := "You removed " ++ toString removedApis.length ++ " public API(s): "
         ++ joinSep ", " (removedApis.map (·.name))
         ++ ". Make sure no downstream consumers depend on these APIs."
       confidence := mkRat 9 10 }]
   else [])
  ++ (if 0 < addedApis.length then
      [{ id := "public-api-added"
         type := .info
         title := "New Public APIs"
         message := "You added " ++ toString addedApis.length ++ " new public API(s): "
           ++ joinSep ", " (addedApis.map (·.name))
           ++ ". Consider documenting these in your API documentation."
         confidence := mkRat 8 10 }]
     else [])

/-- `generateDocumentationInsights`. -/
def generateDocumentationInsights (commit : CommitInfo)
    (docChanges : List DocumentationChange) : List Insight :=
  let newFeatures := docChanges.filter (·.hasNewFeatures)
  let hasNewFeatures := commit.files.any fun f => 50 < f.additions && isSourceFile f.path
  let hasDocUpdates := 0 < docChanges.length
  (if 0 < newFeatures.length then
    [{ id := "documentation-updated"
       type := .info
       title := "Documentation Updated"
       message := "You updated documentation for new features. This is great for maintainability!"
       confidence := mkRat 9 10 }]
   else [])
  ++ (if hasNewFeatures && !hasDocUpdates then
      [{ id := "missing-documentation"
         type := .suggestion
         title := "Consider Updating Documentation"
         message := "You added significant new code (" ++ toString (sumAdditions commit.files)
           ++ " lines). Consider updating README or API documentation to reflect the changes."
         confidence := mkRat 6 10 }]
     else [])

/-- `generateFeatureFlagInsights`. -/
def generateFeatureFlagInsights (featureFlags : List FeatureFlag) : List Insight :=
  if 0 < featureFlags.length then
    let addedFlags := featureFlags.filter fun fl => fl.action = ChangeAction.added
    if 0 < addedFlags.length then
      [{ id := "feature-flags-added"
         type := .suggestion
         title := "New Feature Flags Added"
         message := "You added " ++ toString addedFlags.length ++ " new feature flag(s): "
           ++ joinSep ", " (addedFlags.map (·.name))
           ++ ". Consider documenting these flags and their purpose in your configuration documentation."
         confidence := mkRat 7 10 }]
    else []
  else []

/-- `generateBreakingChangeInsights`. -/
def generateBreakingChangeInsights (breakingChanges : List BreakingChange) : List Insight :=
  if 0 < breakingChanges.length then
    let majorChanges := breakingChanges.filter fun c => c.severity = Severity.major
    if 0 < majorChanges.length then
      [{ id := "breaking-changes"
         type := .error
         title := "Breaking Changes Detected"
         message := "This commit contains " ++ toString majorChanges.length
           ++ " breaking change(s). Consider updating the version number and changelog accordingly."
         confidence := mkRat 9 10 }]
    else []
  else []

/-- `generateGeneralInsights`. -/
def generateGeneralInsights (commit : CommitInfo) : List Insight :=
  let totalLines := sumTotalLines commit.files
  (if 200 < totalLines then
    [{ id := "large-commit"
       type := .info
       title := "Large Commit"
       message := "This is a large commit with " ++ toString totalLines
         ++ " lines changed across " ++ toString commit.files.length
         ++ " files. Consider breaking this into smaller, more focused commits for better code review."
       confidence := mkRat 7 10 }]
   else [])
  ++ (if strLen commit.message < 10 then
      [{ id := "short-commit-message"
         type := .suggestion
         title := "Short Commit Message"
         message := "Your commit message is quite short (" ++ toString (strLen commit.message)
           ++ " characters). Consider adding more context about what changed and why."
         confidence := mkRat 6 10 }]
     else [])
  ++ (if containsStr commit.diff "TODO" || containsStr commit.diff "FIXME" then
      [{ id := "todo-comments"
         type := .info
         title := "TODO/FIXME Comments"
         message := "This commit contains TODO or FIXME comments. Make sure to track these items and address them in future commits."
         confidence := mkRat 8 10 }]
     else [])

/-- `generateInsightsFromAnalysis`: the six generator families, in source
order. -/
def generateInsightsFromAnalysis (commit : CommitInfo)
    (analysis : SemanticAnalysis) : List Insight :=
  generateTestCoverageInsights analysis.testCoverage
  ++ generatePublicApiInsights analysis.publicApiChanges
  ++ generateDocumentationInsights commit analysis.documentationChanges
  ++ generateFeatureFlagInsights analysis.featureFlags
  ++ generateBreakingChangeInsights analysis.breakingChanges
  ++ generateGeneralInsights commit

/-- `typePriority` inside `filterAndRankInsights`. -/
def typePriority : InsightType → ℚ
  | .error => 4
  | .warning => 3
  | .suggestion => 2
  | .info => 1

/-- The JS sort comparator: priority difference, then confidence difference
(negative means the first argument sorts earlier). -/
def sortCmp (a b : Insight) : ℚ :=
  let priorityDiff := typePriority b.type - typePriority a.type
  if priorityDiff ≠ 0 then priorityDiff else b.confidence - a.confidence

/-- `a` may stay before `b` under the comparator: the comparator value
`sortCmp a b` is `≤ 0`.  Written by sign analysis of the two differences so
that it evaluates; `jsLe_eq_sortCmp` below proves it equal to the literal
comparator condition. -/
def jsLe (a b : Insight) : Bool :=
  if typePriority b.type = typePriority a.type then
    decide (b.confidence ≤ a.confidence)
  else
    decide (typePriority b.type < typePriority a.type)

/-- Insert `a` before the first element it compares `≤` to (stable). -/
def orderedIns (le : α → α → Bool) (a : α) : List α → List α
  | [] => [a]
  | b :: l => if le a b then a :: b :: l else b :: orderedIns le a l

/-- Stable insertion sort: the meaning of JS `Array.prototype.sort` (stable
per the language spec) with a consistent comparator. -/
def stableSort (le : α → α → Bool) : List α → List α
  | [] => []
  | a :: l => orderedIns le a (stableSort le l)

/-- `filterAndRankInsights`. -/
def filterAndRankInsights (config : CoachConfig) (insights : List Insight) : List Insight :=
  let filteredInsights :=
    insights.filter fun insight =>
      decide (config.thresholds.minConfidence ≤ insight.confidence)
  jsSlice0 config.output.maxInsights (stableSort jsLe filteredInsights)

/-- `InsightGenerator.isTestFile` (used only by `generateSummary`; its
patterns differ slightly from the analyzer's). -/
def genIsTestFile (path : String) : Bool :=
  ([".test.js", ".test.ts", ".test.jsx", ".test.tsx",
    ".spec.js", ".spec.ts", ".spec.jsx", ".spec.tsx"]).any
      (fun suf => endsWithStr suf path)
  || containsStr path "__tests__" || containsStr path "__test__"
  || containsStr path "test/" || containsStr path "tests/"

/-- `InsightGenerator.isDocumentationFile` (used only by `generateSummary`;
no `CONTRIBUTING` pattern). -/
def genIsDocFile (path : String) : Bool :=
  containsStr (lowerStr path) "readme"
  || containsStr (lowerStr path) "changelog"
  || containsStr path "doc/" || containsStr path "docs/"
  || containsStr path "documentation/"

/-- `generateSummary` (its `_analysis` argument is unused in the source). -/
def generateSummary (commit : CommitInfo) : Summary :=
  { totalLines := sumTotalLines commit.files
    filesChanged := commit.files.length
    testFilesChanged := (commit.files.filter fun f => genIsTestFile f.path).length
    documentationFilesChanged := (commit.files.filter fun f => genIsDocFile f.path).length }

/-- `InsightGenerator.generateInsights`: the full analysis pipeline.  Note
that `config.rules` is never consulted anywhere in this pipeline. -/
def generateInsights (config : CoachConfig) (commit : CommitInfo) : AnalysisResult :=
  let semanticAnalysis := semanticAnalyze commit
  { commit := commit
    insights := filterAndRankInsights config
      (generateInsightsFromAnalysis commit semanticAnalysis)
    summary := generateSummary commit }

/-! ## Ranking policy as worded by the specification

These definitions follow the specification text (severity weight table,
confidence filter, stable sort, truncation) and are compared with the
source-derived `filterAndRankInsights`. -/

/-- Spec-modelled severity weight: error=4, warning=3, suggestion=2, info=1. -/
def severityWeight : InsightType → Nat
  | .error => 4
  | .warning => 3
  | .suggestion => 2
  | .info => 1

/-- Spec-modelled order: higher severity weight first, ties by higher
confidence first, remaining ties keep generation order. -/
def specLe (a b : Insight) : Bool :=
  decide (severityWeight b.type < severityWeight a.type)
  || (decide (severityWeight a.type = severityWeight b.type)
      && decide (b.confidence ≤ a.confidence))

/-- Spec-modelled ranking pipeline: drop below `minConfidence`, stable-sort,
truncate to the first `maxInsights` entries. -/
def rankSpec (config : CoachConfig) (insights : List Insight) : List Insight :=
  (stableSort specLe (insights.filter fun i =>
      !decide (i.confidence < config.thresholds.minConfidence))).take
    config.output.maxInsights.toNat

/-! ## Concrete inputs for witnesses and counterexamples -/

/-- A baseline configuration mirroring the repository's test fixture
(`minConfidence` 0.5, `maxInsights` 10, no rule overrides). -/
def testConfig : CoachConfig :=
  { rules := []
    output := { format := .console, includeSummary := true, maxInsights := 10 }
    integrations := {}
    thresholds := { minConfidence := mkRat 1 2, maxInsightsPerType := [],
                    skipOnSmallChanges := true, smallChangeThreshold := 10 } }

/-- A commit whose full diff assigns to `innerHTML` and never mentions
`textContent` (the fixture of the generator test for the XSS rule). -/
def xssCommit : CommitInfo :=
  { hash := "abc123", message := "Add new feature", author := "Test Author",
    date := 0, diff := "element.innerHTML = userInput;", files := [] }

/-- One source file with 250 changed lines: triggers `missing-tests`,
`missing-documentation` and `large-commit`. -/
def bigCommit : CommitInfo :=
  { hash := "abc123", message := "Refactor the module", author := "Dev",
    date := 0, diff := "", files := [⟨"src/big.js", .modified, 150, 100, ""⟩] }

/-- A configuration that disables the `large-commit` rule by id. -/
def disabledRuleConfig : CoachConfig :=
  { testConfig with
    rules := [{ id := "large-commit", enabled := false, severity := .info,
                conditions := [], message := "Large commit" }] }

/-- A commit with no changed files but a 3-character message. -/
def shortMsgCommit : CommitInfo :=
  { hash := "abc123", message := "fix", author := "Dev", date := 0,
    diff := "", files := [] }

/-- Two source files of 30 added lines each (sum 60 > 50, but no single file
above 50) and no documentation changes. -/
def twoFileCommit : CommitInfo :=
  { hash := "h", message := "Update parser logic", author := "Dev", date := 0,
    diff := "", files := [⟨"src/a.js", .modified, 30, 0, ""⟩,
                          ⟨"src/b.js", .modified, 30, 0, ""⟩] }

/-- One diff line matching both the exported-function and the exported-class
patterns. -/
def dualFile : ChangedFile :=
  ⟨"src/dual.js", .modified, 1, 0, "+export function f() and export class C here"⟩

/-- A removed exported-function line (the repository's breaking-change test
fixture). -/
def removedFnFile : ChangedFile :=
  ⟨"src/api.js", .modified, 0, 5, "-export function removedFunction()"⟩

/-- `testConfig` with an out-of-range `minConfidence` of 1.5. -/
def invalidMinConfidenceConfig : CoachConfig :=
  { testConfig with
    thresholds := { testConfig.thresholds with minConfidence := mkRat 3 2 } }

/-- `testConfig` with a negative `maxInsights`. -/
def negativeMaxInsightsConfig : CoachConfig :=
  { testConfig with
    output := { testConfig.output with maxInsights := -1 } }

/-- A commit analysed by the coverage-ratio witness: one source file without
tests and one with a matching test file. -/
def coverageCommit : CommitInfo :=
  { hash := "h", message := "Add helper utilities", author := "Dev", date := 0,
    diff := "",
    files := [⟨"src/utils/helper.js", .added, 50, 0, ""⟩,
              ⟨"src/utils/other.js", .added, 20, 0, ""⟩,
              ⟨"src/utils/helper.test.js", .added, 30, 0, ""⟩] }

/-- A commit removing an exported function. -/
def apiRemovalCommit : CommitInfo :=
  { hash := "h", message := "Remove old api", author := "Dev", date := 0,
    diff := "", files := [⟨"src/api.js", .modified, 0, 5, "-export function removedFunction()"⟩] }

/-! ## Claim C1 -/

/-- Claim C1 (code bug): the specification, the repository's documentation and
its generator test expect an `xss-risk` error insight (confidence 0.6) for a
commit whose diff contains `innerHTML` without `textContent`, but the insight
generator implements no such rule: on the test fixture's own input the
analysis result contains no insight with id `xss-risk` at all. -/
theorem xss_rule_not_implemented :
    containsStr xssCommit.diff "innerHTML" = true
    ∧ containsStr xssCommit.diff "textContent" = false
    ∧ ((generateInsights testConfig xssCommit).insights.all
        fun i => i.id != "xss-risk") = true := by
  refine ⟨by decide, by decide, by decide⟩

/-! ## Claim C2 -/

/-- Claim C2 (code bug): disabling a rule by id is documented to suppress its
insight, but `generateInsights` never consults `config.rules`: with the
`large-commit` rule disabled and its trigger satisfied, the result still
contains a `large-commit` insight. -/
theorem disabled_rule_not_suppressed :
    (disabledRuleConfig.rules.any
      fun r => r.id == "large-commit" && !r.enabled) = true
    ∧ ((generateInsights disabledRuleConfig bigCommit).insights.any
        fun i => i.id == "large-commit") = true := by
  refine ⟨by decide, by decide⟩

/-! ## Claim C3 -/

/-- Claim C3 counterexample: a commit with an empty `files` sequence but a
3-character message yields a non-empty insights sequence (the
`short-commit-message` insight), so emptiness of `files` alone does not force
empty insights. -/
theorem empty_files_insights_cex :
    shortMsgCommit.files = []
    ∧ (generateInsights testConfig shortMsgCommit).insights ≠ [] := by
  refine ⟨by decide, by decide⟩

/-- Claim C3 amended: for a commit with no changed files the summary's
`totalLines` is 0, and the insights are empty provided the message is at
least 10 characters long and the diff mentions neither `TODO` nor `FIXME`
(otherwise `short-commit-message` or `todo-comments`, which depend only on
the message and diff, can still fire). -/
theorem empty_files_analysis (config : CoachConfig) (commit : CommitInfo)
    (h : commit.files = []) :
    (generateInsights config commit).summary.totalLines = 0
    ∧ (¬ strLen commit.message < 10 →
       containsStr commit.diff "TODO" = false →
       containsStr commit.diff "FIXME" = false →
       (generateInsights config commit).insights = []) := by
  obtain ⟨hash, msg, author, date, diff, files⟩ := commit
  simp only [CommitInfo.files] at h
  subst h
  constructor
  · simp [generateInsights, generateSummary, sumTotalLines]
  · intro hm ht hf
    simp only [strLen, containsStr] at hm ht hf
    replace hm : ¬ msg.length < 10 := hm
    simp [generateInsights, generateInsightsFromAnalysis, semanticAnalyze,
      analyzeTestCoverage, analyzePublicApiChanges, apiChangesOf,
      analyzeDocumentationChanges, docChangesOf, analyzeFeatureFlags, featureFlagsOf,
      analyzeBreakingChanges, breakingChangesOf, totalSourceFiles,
      generateTestCoverageInsights, generatePublicApiInsights,
      generateDocumentationInsights, generateFeatureFlagInsights,
      generateBreakingChangeInsights, generateGeneralInsights, sumTotalLines,
      filterAndRankInsights, stableSort, jsSlice0, strLen, containsStr, hm, ht, hf]

/-- Witness for `empty_files_analysis` at the concrete `xssCommit` (empty
`files`, 15-character message, no TODO/FIXME). -/
theorem empty_files_analysis_witness :
    (generateInsights testConfig xssCommit).summary.totalLines = 0
    ∧ (generateInsights testConfig xssCommit).insights = [] := by
  have h := empty_files_analysis testConfig xssCommit (by decide)
  exact ⟨h.1, h.2 (by decide) (by decide) (by decide)⟩

/-! ## Claim C4 -/

/-- Claim C4 counterexample: a commit with two source files of 30 added lines
each has additions summing to 60 > 50 over its source files and no
documentation changes, yet no `missing-documentation` insight is produced —
the source tests each single file's additions against 50, not the sum. -/
theorem missing_documentation_sum_cex :
    50 < sumAdditions (twoFileCommit.files.filter fun f => isSourceFile f.path)
    ∧ analyzeDocumentationChanges twoFileCommit = []
    ∧ ((generateInsights testConfig twoFileCommit).insights.all
        fun i => i.id != "missing-documentation") = true := by
  refine ⟨by decide, by decide, by decide⟩

/-- Claim C4 amended: the `missing-documentation` insight (type suggestion,
confidence 0.6, message citing the total added lines over all files) is
produced exactly when some single source file has more than 50 added lines
and the commit contains no documentation changes. -/
theorem missing_documentation_iff (commit : CommitInfo) :
    (((generateDocumentationInsights commit (analyzeDocumentationChanges commit)).any
        fun i => i.id == "missing-documentation") = true
      ↔ ((∃ f ∈ commit.files, 50 < f.additions ∧ isSourceFile f.path = true)
          ∧ analyzeDocumentationChanges commit = []))
    ∧ ∀ i ∈ generateDocumentationInsights commit (analyzeDocumentationChanges commit),
        i.id = "missing-documentation" →
        i.type = InsightType.suggestion ∧ i.confidence = mkRat 6 10
        ∧ i.message = "You added significant new code ("
            ++ toString (sumAdditions commit.files)
            ++ " lines). Consider updating README or API documentation to reflect the changes." := by
  constructor
  · simp only [generateDocumentationInsights, List.any_append, Bool.or_eq_true,
      List.any_eq_true]
    constructor
    · rintro (⟨i, hi, hid⟩ | ⟨i, hi, hid⟩)
      · split at hi
        · simp only [List.mem_singleton] at hi
          subst hi
          exact absurd hid (by decide)
        · simp at hi
      · split at hi
        · rename_i hcond
          simp only [List.mem_singleton] at hi
          simp only [Bool.and_eq_true, Bool.not_eq_true', decide_eq_false_iff_not,
            Nat.not_lt, Nat.le_zero, List.length_eq_zero, List.any_eq_true,
            Bool.and_eq_true, decide_eq_true_eq] at hcond
          exact ⟨⟨hcond.1.choose, hcond.1.choose_spec.1, hcond.1.choose_spec.2.1,
            hcond.1.choose_spec.2.2⟩, hcond.2⟩
        · simp at hi
    · rintro ⟨⟨f, hf, hadd, hsrc⟩, hempty⟩
      have hcond : ((commit.files.any fun f => 50 < f.additions && isSourceFile f.path)
          && !(decide (0 < (analyzeDocumentationChanges commit).length))) = true := by
        simp only [Bool.and_eq_true, Bool.not_eq_true', decide_eq_false_iff_not,
          Nat.not_lt, Nat.le_zero, List.length_eq_zero, List.any_eq_true,
          Bool.and_eq_true, decide_eq_true_eq]
        exact ⟨⟨f, hf, hadd, hsrc⟩, hempty⟩
      right
      rw [if_pos hcond]
      exact ⟨_, List.mem_singleton.mpr rfl, by rfl⟩
  · intro i hi hid
    simp only [generateDocumentationInsights, List.mem_append] at hi
    rcases hi with hi | hi
    · split at hi
      · simp only [List.mem_singleton] at hi
        subst hi
        exact absurd hid (by decide)
      · simp at hi
    · split at hi
      · simp only [List.mem_singleton] at hi
        subst hi
        exact ⟨rfl, rfl, rfl⟩
      · simp at hi

/-- Witness for `missing_documentation_iff` at `bigCommit` (one source file
with 150 added lines, no documentation changes). -/
theorem missing_documentation_iff_witness :
    ((generateDocumentationInsights bigCommit (analyzeDocumentationChanges bigCommit)).any
      fun i => i.id == "missing-documentation") = true :=
  (missing_documentation_iff bigCommit).1.mpr
    ⟨⟨⟨"src/big.js", .modified, 150, 100, ""⟩, by decide, by decide, by decide⟩,
     by decide⟩

/-! ## Claim C7 -/

/-- Claim C7 counterexample: the function, class and interface patterns are
tried independently, not in first-match precedence — a single diff line whose
content matches both the exported-function and the exported-class pattern
yields two public-API-change records. -/
theorem api_line_two_records_cex :
    (splitLines dualFile.diff).length = 1
    ∧ (extractPublicApiChanges dualFile).length = 2 := by
  refine ⟨by decide, by decide⟩

/-- Claim C7 amended: each diff line yields at most one record per pattern
family (function, class, interface — hence at most three records), and every
record's action is `added` for a `+` line and `removed` otherwise, with the
record's file set to the analysed path. -/
theorem api_line_bound (path line : String) :
    (extractApiLine path line).length ≤ 3
    ∧ ∀ c ∈ extractApiLine path line,
        (c.action = if startsWithChar '+' line then ChangeAction.added else ChangeAction.removed)
        ∧ c.file = path := by
  unfold extractApiLine
  split
  · rcases h1 : jsSearch matchFuncAt (strTail line) with _ | nm1 <;>
    rcases h2 : jsSearch matchClassAt (strTail line) with _ | nm2 <;>
    rcases h3 : jsSearch matchInterfaceAt (strTail line) with _ | nm3 <;>
    simp [h1, h2, h3]
  · simp

/-- Witness for `api_line_bound` at a concrete added exported-function line. -/
theorem api_line_bound_witness :
    (extractApiLine "src/a.js" "+export function f").length ≤ 3
    ∧ ((⟨.function, "f", "src/a.js", .added, true⟩ : PublicApiChange).action
        = if startsWithChar '+' "+export function f" then ChangeAction.added
          else ChangeAction.removed) :=
  ⟨(api_line_bound "src/a.js" "+export function f").1,
   ((api_line_bound "src/a.js" "+export function f").2 _ (by decide)).1⟩

/-! ## Claim C8 -/

/-- Claim C8 counterexample: the breaking-change record's description is not
the trimmed line content — the source prefixes it with
`Removed exported function: `. -/
theorem breaking_change_description_cex :
    extractBreakingChanges removedFnFile
      = [⟨.removal, "Removed exported function: export function removedFunction()",
          "src/api.js", .major⟩]
    ∧ "Removed exported function: export function removedFunction()"
        ≠ trimStr (strTail "-export function removedFunction()") := by
  refine ⟨by decide, by decide⟩

/-- Claim C8 amended: every removed diff line whose content contains both
`export` and `function` yields exactly one breaking-change record of kind
`removal` and severity `major`, whose description is
`Removed exported function: ` followed by the trimmed line content (and no
other line contributes a record). -/
theorem breaking_changes_exact (file : ChangedFile) :
    extractBreakingChanges file
      = ((splitLines file.diff).filter fun line =>
          startsWithChar '-' line
          && containsStr (strTail line) "export"
          && containsStr (strTail line) "function").map
        fun line => ⟨.removal,
          "Removed exported function: " ++ trimStr (strTail line), file.path, .major⟩ := by
  unfold extractBreakingChanges
  suffices h : ∀ lines, extractBreakLines file.path lines
      = (lines.filter fun line =>
          startsWithChar '-' line
          && containsStr (strTail line) "export"
          && containsStr (strTail line) "function").map
        (fun line => (⟨.removal,
          "Removed exported function: " ++ trimStr (strTail line), file.path,
          .major⟩ : BreakingChange)) from h _
  intro lines
  induction lines with
  | nil => rfl
  | cons line rest ih =>
    cases hs : startsWithChar '-' line
    · simp [extractBreakLines, extractBreakLine, List.filter_cons, hs, ih]
    · cases he : containsStr (strTail line) "export"
      · simp [extractBreakLines, extractBreakLine, List.filter_cons, hs, he, ih]
      · cases hf : containsStr (strTail line) "function"
        · simp [extractBreakLines, extractBreakLine, List.filter_cons, hs, he, hf, ih]
        · simp [extractBreakLines, extractBreakLine, List.filter_cons, hs, he, hf, ih]

/-! ## Claim C5 -/

/-- `jsLe` is the non-positivity of the literal JS comparator `sortCmp`. -/
theorem jsLe_eq_sortCmp (a b : Insight) : jsLe a b = decide (sortCmp a b ≤ 0) := by
  unfold jsLe sortCmp
  by_cases h : typePriority b.type = typePriority a.type
  · simp [h, sub_nonpos]
  · have h2 : typePriority b.type - typePriority a.type ≠ 0 := sub_ne_zero.mpr h
    rw [if_neg h, if_pos h2, decide_eq_decide, sub_nonpos]
    exact ⟨le_of_lt, fun hle => lt_of_le_of_ne hle h⟩

/-- The comparator order agrees with the spec's severity-weight order. -/
theorem jsLe_eq_specLe (a b : Insight) : jsLe a b = specLe a b := by
  obtain ⟨ia, ta, tla, ma, ca⟩ := a
  obtain ⟨ib, tb, tlb, mb, cb⟩ := b
  cases ta <;> cases tb <;>
    simp [jsLe, specLe, typePriority, severityWeight] <;> decide

/-- `slice(0, e)` with a non-negative end index is `take`. -/
theorem jsSlice0_nonneg (e : Int) (h : 0 ≤ e) (l : List α) :
    jsSlice0 e l = l.take e.toNat := by
  unfold jsSlice0
  rw [if_neg (not_lt.mpr h)]

/-- Claim C5: for a non-negative `maxInsights` (the spec's data model), the
source ranking pipeline equals the spec-worded pipeline — drop insights with
confidence strictly below `minConfidence`, stable-sort by severity weight
descending with confidence-descending tie-break, truncate to the first
`maxInsights` — and the final length never exceeds `maxInsights`. -/
theorem filterAndRank_spec (config : CoachConfig) (insights : List Insight)
    (h : 0 ≤ config.output.maxInsights) :
    filterAndRankInsights config insights = rankSpec config insights
    ∧ ((filterAndRankInsights config insights).length : Int)
        ≤ config.output.maxInsights := by
  have hfun : jsLe = specLe := funext fun a => funext fun b => jsLe_eq_specLe a b
  have hfilter : (insights.filter fun i =>
      decide (config.thresholds.minConfidence ≤ i.confidence))
      = insights.filter fun i =>
          !decide (i.confidence < config.thresholds.minConfidence) := by
    apply List.filter_congr
    intro x _
    rw [← decide_not, decide_eq_decide]
    exact (not_lt).symm
  have hmain : filterAndRankInsights config insights = rankSpec config insights := by
    unfold filterAndRankInsights rankSpec
    rw [hfilter, hfun, jsSlice0_nonneg _ h]
  refine ⟨hmain, ?_⟩
  unfold filterAndRankInsights
  rw [jsSlice0_nonneg _ h]
  have hlen := List.length_take_le config.output.maxInsights.toNat
    (stableSort jsLe (insights.filter fun i =>
      decide (config.thresholds.minConfidence ≤ i.confidence)))
  have h2 : (config.output.maxInsights.toNat : Int) = config.output.maxInsights :=
    Int.toNat_of_nonneg h
  omega

/-- Witness for `filterAndRank_spec` on a concrete two-insight list. -/
theorem filterAndRank_spec_witness :
    filterAndRankInsights testConfig
        [⟨"a", .info, "t", "m", mkRat 9 10⟩, ⟨"b", .error, "t", "m", mkRat 6 10⟩]
      = rankSpec testConfig
        [⟨"a", .info, "t", "m", mkRat 9 10⟩, ⟨"b", .error, "t", "m", mkRat 6 10⟩] :=
  (filterAndRank_spec testConfig
    [⟨"a", .info, "t", "m", mkRat 9 10⟩, ⟨"b", .error, "t", "m", mkRat 6 10⟩]
    (by decide)).1

/-! ## Claim C6 -/

/-- A pointwise-stronger filter keeps at most as many elements. -/
theorem filter_length_mono {α : Type} {p q : α → Bool} (l : List α)
    (h : ∀ x, p x = true → q x = true) :
    (l.filter p).length ≤ (l.filter q).length := by
  induction l with
  | nil => simp
  | cons a t ih =>
    simp only [List.filter_cons]
    split_ifs with h1 h2
    · simpa using ih
    · exact absurd (h a h1) h2
    · simp only [List.length_cons]
      exact le_trans ih (Nat.le_succ _)
    · exact ih

/-- Files counted as "without tests" are a subset of the non-deleted source
files. -/
theorem withoutTests_le_totalSource (commit : CommitInfo) :
    (commit.files.filter (withoutTestsPred commit.files)).length
      ≤ totalSourceFiles commit := by
  unfold totalSourceFiles
  apply filter_length_mono
  intro x hx
  simp only [withoutTestsPred, Bool.and_eq_true] at hx
  simp only [Bool.and_eq_true]
  exact ⟨hx.1.1.2, hx.1.2⟩

/-- Claim C6: the coverage ratio lies in `[0,1]`, equals
`(countSourceFiles − countWithoutTests) / countSourceFiles` when a non-deleted
source file exists, equals 1 when no source files exist, and equals 1 exactly
when `sourceFilesWithoutTests` is empty or there are no source files. -/
theorem testCoverageRatio_spec (commit : CommitInfo) :
    (0 ≤ (analyzeTestCoverage commit).testCoverageRatio
      ∧ (analyzeTestCoverage commit).testCoverageRatio ≤ 1)
    ∧ (0 < totalSourceFiles commit →
        (analyzeTestCoverage commit).testCoverageRatio
          = ((totalSourceFiles commit : ℚ)
              - (analyzeTestCoverage commit).sourceFilesWithoutTests.length)
            / totalSourceFiles commit)
    ∧ (totalSourceFiles commit = 0 →
        (analyzeTestCoverage commit).testCoverageRatio = 1)
    ∧ ((analyzeTestCoverage commit).testCoverageRatio = 1
        ↔ ((analyzeTestCoverage commit).sourceFilesWithoutTests = []
            ∨ totalSourceFiles commit = 0)) := by
  have hcw : (analyzeTestCoverage commit).sourceFilesWithoutTests.length
      = (commit.files.filter (withoutTestsPred commit.files)).length := by
    simp [analyzeTestCoverage]
  have hemp : (analyzeTestCoverage commit).sourceFilesWithoutTests = []
      ↔ (commit.files.filter (withoutTestsPred commit.files)).length = 0 := by
    rw [← List.length_eq_zero, hcw]
  by_cases hcs : 0 < totalSourceFiles commit
  · have hne : totalSourceFiles commit ≠ 0 := Nat.pos_iff_ne_zero.mp hcs
    have hratio : (analyzeTestCoverage commit).testCoverageRatio
        = ((totalSourceFiles commit : ℚ)
            - (commit.files.filter (withoutTestsPred commit.files)).length)
          / totalSourceFiles commit := by
      simp only [analyzeTestCoverage, List.length_map]
      rw [if_pos hcs]
    have hq : ((commit.files.filter (withoutTestsPred commit.files)).length : ℚ)
        ≤ (totalSourceFiles commit : ℚ) := by
      exact_mod_cast withoutTests_le_totalSource commit
    have hqpos : (0:ℚ) < (totalSourceFiles commit : ℚ) := by exact_mod_cast hcs
    have hq0 : (0:ℚ) ≤ ((commit.files.filter (withoutTestsPred commit.files)).length : ℚ) :=
      Nat.cast_nonneg _
    refine ⟨⟨?_, ?_⟩, fun _ => by rw [hratio, hcw], fun h0 => absurd h0 hne, ?_⟩
    · rw [hratio]
      apply div_nonneg _ hqpos.le
      linarith
    · rw [hratio, div_le_one hqpos]
      linarith
    · rw [hratio, hemp]
      rw [div_eq_one_iff_eq hqpos.ne.symm, sub_eq_self]
      constructor
      · intro hz
        left
        exact_mod_cast hz
      · rintro (hz | hz)
        · exact_mod_cast hz
        · exact absurd hz hne
  · have h0 : totalSourceFiles commit = 0 := by omega
    have hratio : (analyzeTestCoverage commit).testCoverageRatio = 1 := by
      simp only [analyzeTestCoverage, List.length_map]
      rw [if_neg hcs]
    refine ⟨⟨by rw [hratio]; norm_num, le_of_eq hratio⟩,
      fun hpos => absurd hpos hcs, fun _ => hratio, ?_⟩
    rw [hratio]
    simp [h0]

/-- Witness for `testCoverageRatio_spec` at `coverageCommit` (three non-deleted
source files, one of them without tests). -/
theorem testCoverageRatio_spec_witness :
    (analyzeTestCoverage coverageCommit).testCoverageRatio
      = ((totalSourceFiles coverageCommit : ℚ)
          - (analyzeTestCoverage coverageCommit).sourceFilesWithoutTests.length)
        / totalSourceFiles coverageCommit :=
  (testCoverageRatio_spec coverageCommit).2.1 (by decide)

/-! ## Claim C9

Every insight the rule engine can emit carries a confidence of at most 1, so
an out-of-range `minConfidence` silently filters everything; no validation
error exists anywhere in the pipeline. -/

/-- Test-coverage insights have confidence at most 1. -/
theorem conf_le_one_testCoverage (tc : TestCoverageInfo) :
    ∀ i ∈ generateTestCoverageInsights tc, i.confidence ≤ 1 := by
  intro i h
  unfold generateTestCoverageInsights at h
  rcases List.mem_append.mp h with h|h <;> split at h <;>
    first
      | exact absurd h (List.not_mem_nil _)
      | (rw [List.mem_singleton] at h; subst h;
         first
           | exact (show mkRat 8 10 ≤ (1:ℚ) by decide)
           | exact (show (1:ℚ) ≤ (1:ℚ) by decide))

/-- Public-API insights have confidence at most 1. -/
theorem conf_le_one_publicApi (api : List PublicApiChange) :
    ∀ i ∈ generatePublicApiInsights api, i.confidence ≤ 1 := by
  intro i h
  unfold generatePublicApiInsights at h
  rcases List.mem_append.mp h with h|h <;> split at h <;>
    first
      | exact absurd h (List.not_mem_nil _)
      | (rw [List.mem_singleton] at h; subst h;
         first
           | exact (show mkRat 8 10 ≤ (1:ℚ) by decide)
           | exact (show mkRat 9 10 ≤ (1:ℚ) by decide))

/-- Documentation insights have confidence at most 1. -/
theorem conf_le_one_documentation (commit : CommitInfo) (d : List DocumentationChange) :
    ∀ i ∈ generateDocumentationInsights commit d, i.confidence ≤ 1 := by
  intro i h
  unfold generateDocumentationInsights at h
  rcases List.mem_append.mp h with h|h <;> split at h <;>
    first
      | exact absurd h (List.not_mem_nil _)
      | (rw [List.mem_singleton] at h; subst h;
         first
           | exact (show mkRat 6 10 ≤ (1:ℚ) by decide)
           | exact (show mkRat 9 10 ≤ (1:ℚ) by decide))

/-- Feature-flag insights have confidence at most 1. -/
theorem conf_le_one_featureFlags (fl : List FeatureFlag) :
    ∀ i ∈ generateFeatureFlagInsights fl, i.confidence ≤ 1 := by
  intro i h
  unfold generateFeatureFlagInsights at h
  simp only [] at h
  repeat split at h
  all_goals
    first
      | exact absurd h (List.not_mem_nil _)
      | (rw [List.mem_singleton] at h; subst h;
         exact (show mkRat 7 10 ≤ (1:ℚ) by decide))

/-- Breaking-change insights have confidence at most 1. -/
theorem conf_le_one_breaking (bc : List BreakingChange) :
    ∀ i ∈ generateBreakingChangeInsights bc, i.confidence ≤ 1 := by
  intro i h
  unfold generateBreakingChangeInsights at h
  simp only [] at h
  repeat split at h
  all_goals
    first
      | exact absurd h (List.not_mem_nil _)
      | (rw [List.mem_singleton] at h; subst h;
         exact (show mkRat 9 10 ≤ (1:ℚ) by decide))

/-- General commit insights have confidence at most 1. -/
theorem conf_le_one_general (commit : CommitInfo) :
    ∀ i ∈ generateGeneralInsights commit, i.confidence ≤ 1 := by
  intro i h
  unfold generateGeneralInsights at h
  rcases List.mem_append.mp h with h|h
  · rcases List.mem_append.mp h with h|h <;> split at h <;>
      first
        | exact absurd h (List.not_mem_nil _)
        | (rw [List.mem_singleton] at h; subst h;
           first
             | exact (show mkRat 6 10 ≤ (1:ℚ) by decide)
             | exact (show mkRat 7 10 ≤ (1:ℚ) by decide))
  · split at h <;>
      first
        | exact absurd h (List.not_mem_nil _)
        | (rw [List.mem_singleton] at h; subst h;
           exact (show mkRat 8 10 ≤ (1:ℚ) by decide))

/-- Every raw insight carries a confidence of at most 1. -/
theorem insight_confidence_le_one (commit : CommitInfo) (analysis : SemanticAnalysis) :
    ∀ i ∈ generateInsightsFromAnalysis commit analysis, i.confidence ≤ 1 := by
  intro i hi
  unfold generateInsightsFromAnalysis at hi
  rcases List.mem_append.mp hi with hi|h
  case inr => exact conf_le_one_general _ i h
  rcases List.mem_append.mp hi with hi|h
  case inr => exact conf_le_one_breaking _ i h
  rcases List.mem_append.mp hi with hi|h
  case inr => exact conf_le_one_featureFlags _ i h
  rcases List.mem_append.mp hi with hi|h
  case inr => exact conf_le_one_documentation _ _ i h
  rcases List.mem_append.mp hi with hi|h
  case inr => exact conf_le_one_publicApi _ i h
  exact conf_le_one_testCoverage _ i hi

/-- Claim C9 counterexample: the core performs no configuration validation —
with `minConfidence` 1.5 analysis returns a normal `AnalysisResult` with every
insight silently filtered out, and with `maxInsights` −1 it returns a normal
result whose insight list is sliced from the end (2 of the 3 triggered
insights survive). -/
theorem config_validation_cex :
    1 < invalidMinConfidenceConfig.thresholds.minConfidence
    ∧ (generateInsights invalidMinConfidenceConfig bigCommit).insights = []
    ∧ (generateInsights invalidMinConfidenceConfig bigCommit).summary.totalLines = 250
    ∧ negativeMaxInsightsConfig.output.maxInsights < 0
    ∧ (generateInsights negativeMaxInsightsConfig bigCommit).insights.length = 2 := by
  refine ⟨by decide, by decide, by decide, by decide, by decide⟩

/-- Claim C9 amended: no fail-fast validation exists.  Analysis under an
out-of-range configuration still returns a normal `AnalysisResult`; in
particular a `minConfidence` above 1 silently yields an empty insight list for
every commit, since every emitted confidence is at most 1. -/
theorem out_of_range_minConfidence_silent (config : CoachConfig) (commit : CommitInfo)
    (h : 1 < config.thresholds.minConfidence) :
    (generateInsights config commit).insights = [] := by
  show filterAndRankInsights config
    (generateInsightsFromAnalysis commit (semanticAnalyze commit)) = []
  unfold filterAndRankInsights
  have hfil : (generateInsightsFromAnalysis commit (semanticAnalyze commit)).filter
      (fun i => decide (config.thresholds.minConfidence ≤ i.confidence)) = [] := by
    rw [List.filter_eq_nil]
    intro a ha
    simp only [decide_eq_true_eq, not_le]
    calc a.confidence ≤ 1 := insight_confidence_le_one commit _ a ha
      _ < config.thresholds.minConfidence := h
  rw [hfil]
  show jsSlice0 config.output.maxInsights (stableSort jsLe []) = []
  unfold stableSort jsSlice0
  simp

/-- Witness for `out_of_range_minConfidence_silent` at the concrete
out-of-range configuration and `bigCommit`. -/
theorem out_of_range_minConfidence_silent_witness :
    (generateInsights invalidMinConfidenceConfig bigCommit).insights = [] :=
  out_of_range_minConfidence_silent invalidMinConfidenceConfig bigCommit (by decide)

/-! ## Claim C10 -/

/-- Records of one extracted line carry the analysed file's path. -/
theorem extractApiLine_file (path line : String) :
    ∀ c ∈ extractApiLine path line, c.file = path := by
  intro c h
  unfold extractApiLine at h
  split at h
  · rcases h1 : jsSearch matchFuncAt (strTail line) with _ | nm1 <;>
    rcases h2 : jsSearch matchClassAt (strTail line) with _ | nm2 <;>
    rcases h3 : jsSearch matchInterfaceAt (strTail line) with _ | nm3 <;>
    simp [h1, h2, h3] at h <;>
    rcases h with rfl | rfl | rfl <;> rfl
  · simp at h

/-- All extracted API records carry the analysed file's path. -/
theorem extractApiLines_file (path : String) (lines : List String) :
    ∀ c ∈ extractApiLines path lines, c.file = path := by
  induction lines with
  | nil => simp [extractApiLines]
  | cons line rest ih =>
    intro c h
    rcases List.mem_append.mp h with h|h
    · exact extractApiLine_file path line c h
    · exact ih c h

/-- Every flag record accumulated over the pattern list carries the analysed
file's path. -/
theorem flagFold_file (path content : String) (action : ChangeAction)
    (ms : List (List Char → Option String)) :
    ∀ fl ∈ ms.foldr (fun m acc =>
        (match jsSearch m content with
         | some nm => [(⟨nm, path, action, FlagType.boolean⟩ : FeatureFlag)]
         | none => []) ++ acc) [],
      fl.file = path := by
  induction ms with
  | nil => simp
  | cons m rest ih =>
    intro fl h
    simp only [List.foldr_cons] at h
    rcases List.mem_append.mp h with h|h
    · rcases hm : jsSearch m content with _ | nm
      · rw [hm] at h
        simp at h
      · rw [hm] at h
        rw [List.mem_singleton] at h
        subst h
        rfl
    · exact ih fl h

/-- Flag records of one extracted line carry the analysed file's path. -/
theorem extractFlagLine_file (path line : String) :
    ∀ fl ∈ extractFlagLine path line, fl.file = path := by
  intro fl h
  unfold extractFlagLine at h
  split at h
  · exact flagFold_file path (strTail line) _ flagMatchers fl h
  · simp at h

/-- All extracted flag records carry the analysed file's path. -/
theorem extractFlagLines_file (path : String) (lines : List String) :
    ∀ fl ∈ extractFlagLines path lines, fl.file = path := by
  induction lines with
  | nil => simp [extractFlagLines]
  | cons line rest ih =>
    intro fl h
    rcases List.mem_append.mp h with h|h
    · exact extractFlagLine_file path line fl h
    · exact ih fl h

/-- Breaking-change records of one line carry the analysed file's path. -/
theorem extractBreakLine_file (path line : String) :
    ∀ bc ∈ extractBreakLine path line, bc.file = path := by
  intro bc h
  unfold extractBreakLine at h
  split at h
  · simp only [] at h
    split at h
    · rw [List.mem_singleton] at h
      subst h
      rfl
    · simp at h
  · simp at h

/-- All extracted breaking-change records carry the analysed file's path. -/
theorem extractBreakLines_file (path : String) (lines : List String) :
    ∀ bc ∈ extractBreakLines path lines, bc.file = path := by
  induction lines with
  | nil => simp [extractBreakLines]
  | cons line rest ih =>
    intro bc h
    rcases List.mem_append.mp h with h|h
    · exact extractBreakLine_file path line bc h
    · exact ih bc h

/-- Claim C10: every public-API, feature-flag and breaking-change record
refers to a changed file of the commit whose path has a recognized source
extension; non-source files contribute nothing to these categories. -/
theorem semantic_records_source_files (commit : CommitInfo) :
    (∀ c ∈ (semanticAnalyze commit).publicApiChanges,
      isSourceFile c.file = true ∧ c.file ∈ commit.files.map (·.path))
    ∧ (∀ fl ∈ (semanticAnalyze commit).featureFlags,
      isSourceFile fl.file = true ∧ fl.file ∈ commit.files.map (·.path))
    ∧ (∀ bc ∈ (semanticAnalyze commit).breakingChanges,
      isSourceFile bc.file = true ∧ bc.file ∈ commit.files.map (·.path)) := by
  refine ⟨?_, ?_, ?_⟩
  · show ∀ c ∈ apiChangesOf commit.files, _
    induction commit.files with
    | nil => simp [apiChangesOf]
    | cons f rest ih =>
      intro c h
      rcases List.mem_append.mp h with h|h
      · split at h
        · rename_i hsrc
          have hf := extractApiLines_file f.path (splitLines f.diff) c h
          rw [hf]
          exact ⟨hsrc, by simp⟩
        · simp at h
      · obtain ⟨h1, h2⟩ := ih c h
        exact ⟨h1, by simp [h2]⟩
  · show ∀ fl ∈ featureFlagsOf commit.files, _
    induction commit.files with
    | nil => simp [featureFlagsOf]
    | cons f rest ih =>
      intro fl h
      rcases List.mem_append.mp h with h|h
      · split at h
        · rename_i hsrc
          have hf := extractFlagLines_file f.path (splitLines f.diff) fl h
          rw [hf]
          exact ⟨hsrc, by simp⟩
        · simp at h
      · obtain ⟨h1, h2⟩ := ih fl h
        exact ⟨h1, by simp [h2]⟩
  · show ∀ bc ∈ breakingChangesOf commit.files, _
    induction commit.files with
    | nil => simp [breakingChangesOf]
    | cons f rest ih =>
      intro bc h
      rcases List.mem_append.mp h with h|h
      · split at h
        · rename_i hsrc
          have hf := extractBreakLines_file f.path (splitLines f.diff) bc h
          rw [hf]
          exact ⟨hsrc, by simp⟩
        · simp at h
      · obtain ⟨h1, h2⟩ := ih bc h
        exact ⟨h1, by simp [h2]⟩

/-- Witness for `semantic_records_source_files` at `apiRemovalCommit`, whose
analysis contains one public-API record for `src/api.js`. -/
theorem semantic_records_source_files_witness :
    isSourceFile "src/api.js" = true
    ∧ ("src/api.js" : String) ∈ apiRemovalCommit.files.map (·.path) :=
  (semantic_records_source_files apiRemovalCommit).1
    ⟨.function, "removedFunction", "src/api.js", .removed, true⟩ (by decide)

end CommitCoach
